import Mathlib

/-!
Verification of the Exams-Viewer maintenance scripts
(`scripts/update_manifest.py`, `scripts/servicenow_batch_scraper.py`).

The Python code is shallowly embedded: the filesystem is a `World` value
(the list of exam subdirectories of `public/data` plus the manifest file),
the external listing site is a `Net` value, JSON files are structures whose
fields mirror exactly the keys the scripts read, and "now" timestamps are
explicit string parameters.  A missing file or key is `none`; an unreadable
or unparsable file is `some (.error ())`.  Exceptions that the Python code
lets escape are modelled by `Option`/`Except` results.
-/

namespace ExamsViewer

/-- Domain-detection metadata attached to every scanned manifest entry
(the `domainDetection` object built in `scan_exam_directory`). -/
structure DomainDetection where
  confidence : String
  autoDetected : Bool
  detectedAt : String
deriving DecidableEq

/-- Summary of a sibling links record (the `source_info` dict of
`scan_exam_directory`). -/
structure SourceInfo where
  total_links : Nat
  scraped_links : Nat
  last_scan : String
deriving DecidableEq

/-- A fully populated manifest entry exactly as built by `scan_exam_directory`
(update_manifest.py lines 230-246). -/
structure Entry where
  code : String
  name : String
  description : String
  questionCount : Nat
  lastUpdated : String
  domain : String
  domainDetection : DomainDetection
  source : Option SourceInfo
deriving DecidableEq

/-- The code point of a character with ASCII lowercase mapped to uppercase
(the normal form under which `re.IGNORECASE` compares ASCII patterns). -/
def upCode (c : Char) : Nat :=
  if 97 ≤ c.toNat && c.toNat ≤ 122 then c.toNat - 32 else c.toNat

/-- A string as its list of case-folded code points. -/
def upChars (s : String) : List Nat := s.data.map upCode

/-- Case-insensitive equality of strings, modelling
`re.match(r'^PAT$', code, re.IGNORECASE)` for a pattern `PAT` made of literal
characters only, applied to newline-free exam codes. -/
def eqCI (a b : String) : Bool := upChars a == upChars b

/-- `needle` occurs at the head of `hay`. -/
def subAt {α : Type} [BEq α] : List α → List α → Bool
  | [], _ => true
  | _ :: _, [] => false
  | n :: ns, h :: hs => n == h && subAt ns hs

/-- `needle` occurs somewhere in `hay`. -/
def findSub {α : Type} [BEq α] (needle : List α) : List α → Bool
  | [] => subAt needle []
  | c :: hs => subAt needle (c :: hs) || findSub needle hs

/-- `needle` occurs as a contiguous substring of `hay` (Python's `in`, or a
`.*NEEDLE.*` regex fragment on newline-free input). -/
def containsSub (hay needle : String) : Bool := findSub needle.data hay.data

/-- The exact-match table `domain_patterns` of `detect_servicenow_domain`
(lines 53-90), in source order; each regex `^X$` is represented by its literal
body `X`. -/
def domain_patterns : List (String × List String) :=
  [("ITSM", ["CIS-ITSM", "CIS-EM", "CIS-Discovery", "CIS-SM"]),
   ("Security", ["CIS-SIR", "CIS-VR", "CIS-VRM", "CIS-RC"]),
   ("HR", ["CIS-HR"]),
   ("Asset Management", ["CIS-HAM", "CIS-SAM"]),
   ("Service Management", ["CIS-CSM", "CIS-FSM"]),
   ("Portfolio Management", ["CIS-PPM", "CIS-SPM", "CIS-APM"]),
   ("Development", ["CAD", "CAS-PA"]),
   ("Infrastructure", ["CSA", "CIS-CPG"])]

/-- Shape of the fallback regexes of `detect_servicenow_domain` (lines 99-108):
either `^FRONT.*(a1|...|ak).*$` or `^(a1|...|ak).*$`, case-insensitive. -/
inductive FallbackPat where
  | afterFront (front : String) (alts : List String)
  | startsAny (alts : List String)
deriving DecidableEq

/-- Whether a fallback regex matches the (uppercased) exam code; on
newline-free input `^FRONT.*A.*$` holds iff the code starts with `FRONT` and
contains `A` after it, and `^(A|B).*$` holds iff the code starts with `A` or
`B`. -/
def fallbackMatches (code : String) : FallbackPat → Bool
  | .afterFront front alts =>
      subAt (upChars front) (upChars code) &&
        alts.any (fun a =>
          findSub (upChars a) ((upChars code).drop (upChars front).length))
  | .startsAny alts => alts.any (fun a => subAt (upChars a) (upChars code))

/-- The `fallback_patterns` table of `detect_servicenow_domain` (lines 99-108),
in source order. -/
def fallback_patterns : List (String × FallbackPat) :=
  [("ITSM", .afterFront "CIS-" ["ITSM"]),
   ("Security", .afterFront "CIS-" ["SIR", "SEC", "VR", "VRM", "RC"]),
   ("HR", .afterFront "CIS-" ["HR"]),
   ("Asset Management", .afterFront "CIS-" ["HAM", "SAM", "ASSET"]),
   ("Service Management", .afterFront "CIS-" ["CSM", "FSM", "SERVICE"]),
   ("Portfolio Management", .afterFront "CIS-" ["PPM", "SPM", "APM", "PORTFOLIO"]),
   ("Development", .startsAny ["CAD", "CAS", "DEV"]),
   ("Infrastructure", .startsAny ["CSA", "INFRA", "SYS"])]

/-- `detect_servicenow_domain` (lines 38-115): first matching exact pattern
wins with confidence `high`, then the first matching fallback pattern with
`medium`, else `("Infrastructure", "low")`. -/
def detect_servicenow_domain (exam_code : String) : String × String :=
  match domain_patterns.find? (fun dp => dp.2.any (fun p => eqCI p exam_code)) with
  | some dp => (dp.1, "high")
  | none =>
    match fallback_patterns.find? (fun fp => fallbackMatches exam_code fp.2) with
    | some fp => (fp.1, "medium")
    | none => ("Infrastructure", "low")

/-- A link inside a links record as read back from JSON: either a bare URL
string (the only shape `dispatch_servicenow_links` ever writes) or an object
carrying a boolean `scraped` flag (the shape `l.get('scraped', False)`
expects). -/
inductive LinkItem where
  | str (url : String)
  | obj (scraped : Bool)
deriving DecidableEq

/-- Whether the link is a dict (so that `.get` exists on it). -/
def LinkItem.isObj : LinkItem → Bool
  | .str _ => false
  | .obj _ => true

/-- The `scraped` flag of an object link; only meaningful under `isObj`. -/
def LinkItem.isScraped : LinkItem → Bool
  | .str _ => false
  | .obj b => b

/-- The fields of a links record that `scan_exam_directory` reads: the `links`
array (`.get('links', [])`, a missing key modelled as `[]`) and the optional
`last_updated` key. -/
structure LinksJson where
  links : List LinkItem
  last_updated : Option String
deriving DecidableEq

/-- The `source_info` computation of `scan_exam_directory` (lines 216-224):
building the dict evaluates `l.get('scraped', False)` on every element of
`links`, so any bare string link raises `AttributeError`, which the enclosing
bare `except: pass` swallows, leaving `source_info = None`. -/
def sourceInfoOf (lj : LinksJson) : Option SourceInfo :=
  if lj.links.all LinkItem.isObj then
    some ⟨lj.links.length, (lj.links.filter LinkItem.isScraped).length,
          lj.last_updated.getD "unknown"⟩
  else none

/-- The fields of `exam.json` that `scan_exam_directory` reads: the length of
the `questions` array and the optional `exam_name`. -/
structure ExamJson where
  questions : Nat
  exam_name : Option String
deriving DecidableEq

/-- The result of trying to read and parse a JSON file: the file may be
absent, present but unreadable/unparsable, or parsed. -/
inductive FileRead (α : Type) where
  | missing
  | corrupt
  | parsed (a : α)
deriving DecidableEq

/-- One exam subdirectory as the scripts see it: its name, the result of
reading `exam.json`, the ISO-formatted mtime of `exam.json`, and likewise the
sibling `links.json`. -/
structure DirState where
  name : String
  examJson : FileRead ExamJson
  mtimeIso : String
  linksJson : FileRead LinksJson
deriving DecidableEq

/-- The display-name fallback of `scan_exam_directory` (lines 207-210). -/
def examNameOf (code : String) (j : ExamJson) : String :=
  let n := j.exam_name.getD code
  if n = "" || n = code then code else n

/-- `scan_exam_directory` (lines 165-252): `none` when `exam.json` is missing,
unreadable, or has an empty question list; otherwise the full manifest entry,
with `detectedAt` stamped with the current time `now`. -/
def scan_exam_directory (d : DirState) (now : String) : Option Entry :=
  match d.examJson with
  | .missing => none
  | .corrupt => none
  | .parsed j =>
    if j.questions = 0 then none
    else
      let exam_name := examNameOf d.name j
      let source_info : Option SourceInfo :=
        match d.linksJson with
        | .missing => none
        | .corrupt => none
        | .parsed lj => sourceInfoOf lj
      let dc := detect_servicenow_domain d.name
      some { code := d.name, name := exam_name,
             description := exam_name ++ " certification exam questions",
             questionCount := j.questions, lastUpdated := d.mtimeIso,
             domain := dc.1,
             domainDetection :=
               { confidence := dc.2, autoDetected := true, detectedAt := now },
             source := source_info }

/-- A manifest entry as loaded back from `manifest.json`: only the keys the
scripts actually read are modelled, each optional because a JSON object can
lack any of them. -/
structure StoredEntry where
  code : Option String
  name : Option String
  description : Option String
  questionCount : Option Nat
  lastUpdated : Option String
deriving DecidableEq

/-- The manifest document as loaded back from `manifest.json`; every top-level
key may be absent. -/
structure StoredManifest where
  version : Option String
  generated : Option String
  totalExams : Option Nat
  totalQuestions : Option Nat
  exams : Option (List StoredEntry)
deriving DecidableEq

/-- The manifest assembled by `generate_manifest` (lines 385-391): all fields
present. -/
structure Manifest where
  version : String
  generated : String
  totalExams : Nat
  totalQuestions : Nat
  exams : List Entry
deriving DecidableEq

/-- The filesystem as the scripts see it: the exam subdirectories of
`public/data` (`none` = the data directory itself is missing) and the manifest
file. -/
structure World where
  dataDir : Option (List DirState)
  manifestFile : FileRead StoredManifest

/-- `exam.get('description', '')`. -/
def descOf (e : StoredEntry) : String := e.description.getD ""

/-- The `existing_descriptions` dict of `generate_manifest` (lines 352-356):
each entry with a truthy `code` and truthy `description` is inserted, later
entries overwriting earlier ones, so a lookup returns the last qualifying
entry's description. -/
def lookupDesc (exams : List StoredEntry) (c : String) : Option String :=
  (exams.reverse.find?
      (fun x => x.code == some c && c != "" && descOf x != "")).map descOf

/-- Description preservation in `generate_manifest` (lines 368-372): overwrite
the freshly scanned default only when the old manifest recorded a non-empty
description for this code. -/
def applyDesc (old : List StoredEntry) (e : Entry) : Entry :=
  match lookupDesc old e.code with
  | some d => { e with description := d }
  | none => e

/-- Lexicographic order (Python `<=` on strings, compared as their code-point
sequences). -/
def lexLe : List Nat → List Nat → Bool
  | [], _ => true
  | _ :: _, [] => false
  | a :: as, b :: bs => if a < b then true else if b < a then false else lexLe as bs

/-- The code-point sequence of a string, the form in which Python compares
strings. -/
def codeKey (s : String) : List Nat := s.data.map Char.toNat

/-- The comparison used by every `sort(key=lambda x: x['code'])` call. -/
def entryLe (a b : Entry) : Prop := lexLe (codeKey a.code) (codeKey b.code) = true

instance : DecidableRel entryLe := fun _ _ => inferInstanceAs (Decidable (_ = true))

/-- `manifest_entries.sort(key=lambda x: x['code'])` (line 382): a stable
ascending sort by the code string. -/
def sortEntries (l : List Entry) : List Entry :=
  List.insertionSort entryLe l

/-- The manifest object loaded at the start of `generate_manifest`
(lines 343-349): a missing or unparsable file degrades to `{}`. -/
def loadedOld (w : World) : StoredManifest :=
  match w.manifestFile with
  | .parsed m => m
  | _ => ⟨none, none, none, none, none⟩

/-- `generate_manifest` (lines 327-424): `none` when the data directory is
missing; otherwise scan every non-hidden subdirectory, preserve old
descriptions, sort by code and assemble the manifest with recomputed
aggregates. -/
def generate_manifest (w : World) (now : String) : Option Manifest :=
  match w.dataDir with
  | none => none
  | some dirs =>
    let old := (loadedOld w).exams.getD []
    let entries :=
      ((dirs.filter (fun d => !(subAt ['.'] d.name.data))).filterMap
        (fun d => scan_exam_directory d now)).map (applyDesc old)
    let sorted := sortEntries entries
    some { version := "3.0", generated := now,
           totalExams := sorted.length,
           totalQuestions := (sorted.map Entry.questionCount).sum,
           exams := sorted }

/-- How a freshly scanned entry appears once serialized into the manifest
list (the keys later reads care about). -/
def Entry.toStored (e : Entry) : StoredEntry :=
  ⟨some e.code, some e.name, some e.description, some e.questionCount,
   some e.lastUpdated⟩

/-- How a generated manifest appears once serialized and loaded back. -/
def Manifest.toStored (m : Manifest) : StoredManifest :=
  ⟨some m.version, some m.generated, some m.totalExams, some m.totalQuestions,
   some (m.exams.map Entry.toStored)⟩

/-- Per-entry required-field check of `validate_manifest` (lines 481-486). -/
def StoredEntry.hasRequired (e : StoredEntry) : Bool :=
  e.code.isSome && e.name.isSome && e.questionCount.isSome && e.lastUpdated.isSome

/-- `validate_manifest` (lines 463-489): the five top-level required fields
must be present and every entry must carry `code`, `name`, `questionCount`
and `lastUpdated`. -/
def validate_manifest (m : StoredManifest) : Bool :=
  m.version.isSome && m.generated.isSome && m.totalExams.isSome &&
  m.totalQuestions.isSome && m.exams.isSome &&
  (m.exams.getD []).all StoredEntry.hasRequired

/-- `sum(exam['questionCount'] for exam in ...)` (line 321): `none` models the
`KeyError` raised when some entry lacks the key. -/
def sumQC : List StoredEntry → Option Nat
  | [] => some 0
  | e :: l =>
    match e.questionCount, sumQC l with
    | some q, some s => some (q + s)
    | _, _ => none

/-- The comparison used when sorting stored entries by their `code` key. -/
def storedLe (a b : StoredEntry) : Prop :=
  lexLe (codeKey (a.code.getD "")) (codeKey (b.code.getD "")) = true

instance : DecidableRel storedLe := fun _ _ => inferInstanceAs (Decidable (_ = true))

/-- `manifest['exams'].sort(key=lambda x: x['code'])` (line 315): `none`
models the `KeyError` raised when some entry lacks `code`; otherwise a stable
ascending sort by the code string. -/
def sortStored (l : List StoredEntry) : Option (List StoredEntry) :=
  if l.all (fun e => e.code.isSome) then some (List.insertionSort storedLe l)
  else none

/-- The `exam_path.exists()` check of `update_single_exam_in_manifest`
(lines 285-288), resolving the code to its data subdirectory. -/
def findDir (w : World) (code : String) : Option DirState :=
  (w.dataDir.getD []).find? (fun d => d.name == code)

/-- The metadata refresh of `update_single_exam_in_manifest` (lines 318-321):
stamp `generated`, recompute both aggregates, and keep everything else. -/
def finishUpdate (om : StoredManifest) (exams : List StoredEntry) (now : String) :
    Option StoredManifest :=
  match sumQC exams with
  | none => none
  | some s =>
    some { om with
      generated := some now
      totalExams := some exams.length
      totalQuestions := some s
      exams := some exams }

/-- The replacement loop of `update_single_exam_in_manifest` (lines 296-309):
find the first entry whose `code` equals the target, preserve its non-empty
description, replace that entry in place and stop; `none` when no entry
matched. -/
def replaceEntry (exam_code : String) (e : Entry) :
    List StoredEntry → Option (List StoredEntry)
  | [] => none
  | x :: xs =>
    if x.code == some exam_code then
      let e' := if descOf x != "" then { e with description := descOf x } else e
      some (e'.toStored :: xs)
    else
      (replaceEntry exam_code e xs).map (x :: ·)

/-- The index of the first entry whose `code` equals the target (the
`for i, exam in enumerate(...)` search of lines 297-298). -/
def findCodeIdx (c : String) : List StoredEntry → Option Nat
  | [] => none
  | x :: xs =>
    if x.code == some c then some 0 else (findCodeIdx c xs).map (· + 1)

/-- The stored form of the entry that `update_single_exam_in_manifest` puts
at position `i`: the fresh scan result, with the description of the entry it
replaces preserved when that description is non-empty. -/
def updatedEntryStored (xs : List StoredEntry) (i : Nat) (e : Entry) :
    StoredEntry :=
  match xs[i]? with
  | some old =>
    (if descOf old != "" then { e with description := descOf old } else e).toStored
  | none => e.toStored

/-- `update_single_exam_in_manifest` (lines 255-324): the manifest content
written to disk, `none` when nothing is saved (missing directory, failed scan,
unparsable manifest, or an escaping `KeyError`). -/
def update_single_exam_in_manifest (w : World) (exam_code now : String) :
    Option StoredManifest :=
  match w.manifestFile with
  | .missing => (generate_manifest w now).map Manifest.toStored
  | .corrupt => none
  | .parsed om =>
    match findDir w exam_code with
    | none => none
    | some d =>
      match scan_exam_directory d now with
      | none => none
      | some e =>
        let exams := om.exams.getD []
        match replaceEntry exam_code e exams with
        | some exams' => finishUpdate om exams' now
        | none =>
          match sortStored (exams ++ [e.toStored]) with
          | none => none
          | some sorted => finishUpdate om sorted now

/-- The save path of `main` (lines 511-526): generate, abort unless
`validate_manifest` passes, then save; the result is the manifest file content
written, `none` meaning the primary file is left untouched. -/
def mainSave (w : World) (now : String) : Option StoredManifest :=
  match generate_manifest w now with
  | none => none
  | some m => if validate_manifest m.toStored then some m.toStored else none

/-- The numeric value of a run of decimal digit characters. -/
def digitsToNat (ds : List Char) : Nat :=
  ds.foldl (fun a c => a * 10 + (c.toNat - 48)) 0

/-- One attempted match of `question-(\d+)` at the head of the character
list: the literal `question-` followed by a maximal non-empty digit run. -/
def matchQAt : List Char → Option Nat
  | 'q' :: 'u' :: 'e' :: 's' :: 't' :: 'i' :: 'o' :: 'n' :: '-' :: rest =>
    let ds := rest.takeWhile Char.isDigit
    if ds.isEmpty then none else some (digitsToNat ds)
  | _ => none

/-- `re.search(r'question-(\d+)', link)` followed by `int(...)`: the leftmost
match wins. -/
def searchQNum : List Char → Option Nat
  | [] => none
  | c :: cs =>
    match matchQAt (c :: cs) with
    | some n => some n
    | none => searchQNum cs

/-- The sort key of `batch_collect_servicenow_links` lines 130-133: the parsed
question number, with links lacking the marker treated as 0. -/
def linkKey (link : String) : Nat := (searchQNum link.data).getD 0

/-- `sorted(exam_links[exam_code], key=...)` (lines 129-133 and 235-240): a
stable ascending sort by `linkKey`. -/
def sortLinks (l : List String) : List String :=
  List.insertionSort (fun a b => linkKey a ≤ linkKey b) l

/-- One discussion-title container on a listing page: its text content and the
`href` of its anchor, if any. -/
structure Title where
  text : String
  href : Option String
deriving DecidableEq

/-- The root listing page: the `strong` texts inside the page-count indicator
element, `none` when the indicator element is absent. -/
structure RootPage where
  indicator : Option (List String)
deriving DecidableEq

/-- The external listing as the collector sees it: the root page (`none` =
unreachable) and, for each page number, the title containers found there
(`none` = that page's fetch failed). -/
structure Net where
  root : Option RootPage
  pages : Nat → Option (List Title)

/-- A character allowed in the exam token of `Exam\s+([A-Za-z0-9-]+)`. -/
def isExamTokenChar (c : Char) : Bool := c.isAlphanum || c == '-'

/-- One attempted match of `Exam\s+([A-Za-z0-9-]+)` at the head of the
character list: the literal `Exam`, at least one whitespace character, then a
maximal non-empty token run. -/
def matchExamAt : List Char → Option String
  | 'E' :: 'x' :: 'a' :: 'm' :: rest =>
    if (rest.takeWhile Char.isWhitespace).isEmpty then none
    else
      let tok := (rest.dropWhile Char.isWhitespace).takeWhile isExamTokenChar
      if tok.isEmpty then none else some (String.mk tok)
  | _ => none

/-- `re.search(r'Exam\s+([A-Za-z0-9-]+)', title_text)`: leftmost match wins. -/
def searchExamCode : List Char → Option String
  | [] => none
  | c :: cs =>
    match matchExamAt (c :: cs) with
    | some t => some t
    | none => searchExamCode cs

/-- A character stripped by Python's `str.strip()`. -/
def pyWhite (c : Char) : Bool :=
  c == ' ' || c == '\t' || c == '\n' || c == '\r' || c == '\x0b' || c == '\x0c'

/-- Python's `str.strip()` on the character list. -/
def trimChars (cs : List Char) : List Char :=
  ((cs.dropWhile pyWhite).reverse.dropWhile pyWhite).reverse

/-- Processing of one title container (lines 103-121): skip empty text, strip,
require the substring `"Exam "`, extract the exam token, keep it only when it
is targeted and the anchor has an `href`. -/
def titleHit (targets : List String) (title : Title) : Option (String × String) :=
  if title.text = "" then none
  else
    let s := trimChars title.text.data
    if findSub "Exam ".data s then
      match searchExamCode s with
      | none => none
      | some code =>
        if targets.contains code then
          match title.href with
          | some h => some (code, h)
          | none => none
        else none
    else none

/-- Appending one discovered link to `exam_links[code]` (a `defaultdict(list)`
keeping keys in first-insertion order). -/
def addLink (acc : List (String × List String)) (code h : String) :
    List (String × List String) :=
  match acc with
  | [] => [(code, [h])]
  | (c, ls) :: rest =>
    if c = code then (c, ls ++ [h]) :: rest else (c, ls) :: addLink rest code h

/-- Accumulator of the page loop: the links collected so far and the page
numbers whose fetch failed (each reported with a "Failed page" warning). -/
structure CollectState where
  links : List (String × List String)
  skipped : List Nat

/-- Processing of the titles of one successfully fetched page (lines 100-121). -/
def processPage (targets : List String) (titles : List Title)
    (acc : List (String × List String)) : List (String × List String) :=
  titles.foldl
    (fun a title =>
      match titleHit targets title with
      | some ch => addLink a ch.1 ch.2
      | none => a) acc

/-- The page loop of `batch_collect_servicenow_links` (lines 87-126): a failed
page fetch is recorded and skipped, every other page is processed, and the
loop always runs to completion. -/
def collectPages (net : Net) (targets : List String) :
    List Nat → CollectState → CollectState
  | [], st => st
  | p :: ps, st =>
    match net.pages p with
    | none =>
      collectPages net targets ps { st with skipped := st.skipped ++ [p] }
    | some titles =>
      collectPages net targets ps { st with links := processPage targets titles st.links }

/-- A non-empty all-digit character run parsed to a number. -/
def parseNatChars (cs : List Char) : Option Nat :=
  if !cs.isEmpty && cs.all Char.isDigit then some (digitsToNat cs) else none

/-- `int(text)` on the indicator text: Python's `int` tolerates surrounding
whitespace and a single sign character. -/
def pyInt (s : String) : Option Int :=
  match trimChars s.data with
  | '-' :: rest => (parseNatChars rest).map (fun n => -(n : Int))
  | '+' :: rest => (parseNatChars rest).map (fun n => (n : Int))
  | t => (parseNatChars t).map (fun n => (n : Int))

/-- The collection result: links per exam in first-discovery key order (each
list sorted by `linkKey`), the skipped page numbers, and the page count. -/
structure CollectResult where
  links : List (String × List String)
  skipped : List Nat
  numPages : Int

/-- `batch_collect_servicenow_links` (lines 50-148) over the abstract listing
`net`: a fatal error (raised exception) when the root page is unreachable,
when the page-count indicator is absent, when it has fewer than two `strong`
tags, or when the second tag's text is not an integer; otherwise the page
loop runs over pages `1..num_pages`, skipping failed pages, and each exam's
links are finally sorted by question number. -/
def batch_collect_servicenow_links (net : Net) (targets : List String) :
    Except String CollectResult :=
  match net.root with
  | none => .error "Unable to access ServiceNow pages"
  | some rp =>
    match rp.indicator with
    | none => .error "Page indicator not found"
    | some strongs =>
      if strongs.length < 2 then .error "Unexpected page indicator format"
      else
        match pyInt (strongs.getD 1 "") with
        | none => .error "invalid literal for int"
        | some numPages =>
          let st := collectPages net targets (List.range' 1 numPages.toNat) ⟨[], []⟩
          .ok ⟨st.links.map (fun cl => (cl.1, sortLinks cl.2)), st.skipped, numPages⟩

/-- A links record as written by `dispatch_servicenow_links` (lines 282-290). -/
structure LinksRecord where
  page_num : Int
  status : String
  links : List String
  collected_at : String
  method : String
  exam_code : String
  links_count : Nat
deriving DecidableEq

/-- The `links_obj` value built by `dispatch_servicenow_links` for one exam. -/
def dispatchRecord (links : List String) (total_pages : Int) (now code : String) :
    LinksRecord :=
  ⟨total_pages, "complete", links, now, "servicenow_batch_collection", code,
   links.length⟩

/-- A dispatcher-written record read back through the keys
`scan_exam_directory` uses: every element of `links` is a bare string, and
there is no `last_updated` key. -/
def LinksRecord.asScanInput (r : LinksRecord) : LinksJson :=
  ⟨r.links.map LinkItem.str, none⟩

/-- Rewriting only the scan timestamp (`domainDetection.detectedAt`) of an
entry, keeping every other field. -/
def retime (t : String) (e : Entry) : Entry :=
  { e with domainDetection := { e.domainDetection with detectedAt := t } }

/-- Fallback entry value used to destructure `Option Entry` results. -/
def noEntry : Entry := ⟨"", "", "", 0, "", "", ⟨"", false, ""⟩, none⟩

/-- Fallback manifest value used to destructure `Option Manifest` results. -/
def noManifest : Manifest := ⟨"", "", 0, 0, []⟩

/-- Fallback stored-manifest value. -/
def noStored : StoredManifest := ⟨none, none, none, none, none⟩

/-! Concrete inputs used by witnesses and counterexamples. -/

/-- A links record exactly as the dispatcher writes it for one collected link. -/
def lr3 : LinksRecord :=
  dispatchRecord
    ["https://www.examtopics.com/discussions/servicenow/view/1-exam-csa-topic-1-question-1-discussion/"]
    3 "2024-01-02T00:00:00" "CSA"

/-- An exam directory holding five questions and a dispatcher-written links
record (whose links are bare strings). -/
def dirStrLinks : DirState :=
  ⟨"CSA", .parsed ⟨5, none⟩, "2024-01-01T00:00:00", .parsed lr3.asScanInput⟩

/-- An exam directory whose links record stores object links with `scraped`
flags and a `last_updated` key. -/
def dirObjLinks : DirState :=
  ⟨"CSA", .parsed ⟨2, some "Certified System Administrator"⟩, "M",
   .parsed ⟨[.obj true, .obj false, .obj true], some "2024-05-05"⟩⟩

/-- A listing whose root page is unreachable. -/
def netRootDead : Net := ⟨none, fun _ => none⟩

/-- A listing whose root page lacks the page-count indicator element. -/
def netNoInd : Net := ⟨some ⟨none⟩, fun _ => none⟩

/-- A listing whose indicator has a single `strong` tag. -/
def netShortInd : Net := ⟨some ⟨some ["1"]⟩, fun _ => none⟩

/-- A listing whose indicator's second `strong` tag is not an integer. -/
def netBadInt : Net := ⟨some ⟨some ["1", "lots"]⟩, fun _ => none⟩

/-- A three-page listing whose page 2 is unreachable; pages 1 and 3 each hold
one targeted discussion title. -/
def net3 : Net :=
  ⟨some ⟨some ["1", "3"]⟩,
   fun p =>
     if p = 1 then
       some [⟨"Exam A1 topic 1 question 2 discussion", some "https://x/question-2/"⟩]
     else if p = 3 then
       some [⟨"Exam A1 topic 1 question 1 discussion", some "https://x/question-1/"⟩]
     else none⟩

/-- A one-page listing with three titles for one exam, discovered in the
order question-5, question-1, question-10. -/
def net8 : Net :=
  ⟨some ⟨some ["1", "1"]⟩,
   fun p =>
     if p = 1 then
       some [⟨"Exam A1 topic 1 question 5 discussion", some "https://x/question-5/"⟩,
             ⟨"Exam A1 topic 1 question 1 discussion", some "https://x/question-1/"⟩,
             ⟨"Exam A1 topic 1 question 10 discussion", some "https://x/question-10/"⟩]
     else none⟩

/-- A plain exam directory with five questions and no links record. -/
def dirA1 : DirState := ⟨"A1", .parsed ⟨5, none⟩, "L1", .missing⟩

/-- A plain exam directory named "B". -/
def dirB : DirState := ⟨"B", .parsed ⟨7, none⟩, "LB", .missing⟩

/-- A plain exam directory named "D". -/
def dirD : DirState := ⟨"D", .parsed ⟨4, none⟩, "LD", .missing⟩

/-- A well-formed stored entry with a custom description. -/
def se (c : String) (q : Nat) : StoredEntry :=
  ⟨some c, some c, some (c ++ " desc"), some q, some "L"⟩

/-- A stored manifest with entries "A", "B", "C". -/
def om6 : StoredManifest :=
  ⟨some "3.0", some "G", some 3, some 6, some [se "A" 1, se "B" 2, se "C" 3]⟩

/-- World for an in-place single-exam update of "B". -/
def w6b : World := ⟨some [dirB], .parsed om6⟩

/-- World for a single-exam update that appends the new exam "D". -/
def w6c : World := ⟨some [dirD], .parsed om6⟩

/-- World with two scannable directories in unsorted order and no manifest. -/
def w6a : World := ⟨some [dirB, dirA1], .missing⟩

/-- A stored manifest whose top-level `version` key is missing. -/
def om4 : StoredManifest := ⟨none, some "G", some 1, some 5, some [se "A1" 5]⟩

/-- World whose on-disk manifest is missing its `version` field. -/
def w4 : World := ⟨some [dirA1], .parsed om4⟩

/-- A stored manifest carrying a custom description for "A1". -/
def om2 : StoredManifest :=
  ⟨some "3.0", some "G", some 1, some 5,
   some [⟨some "A1", some "A1", some "Custom text", some 5, some "L0"⟩]⟩

/-- World for re-generation over a manifest with a custom description. -/
def w2a : World := ⟨some [dirA1], .parsed om2⟩

/-- World for a single-exam update over a manifest with a custom description. -/
def w2b : World := ⟨some [dirA1], .parsed om2⟩

/-- World for the single-exam-update aggregate witness. -/
def w5b : World :=
  ⟨some [dirA1], .parsed ⟨some "3.0", some "G", some 1, some 5, some [se "A1" 5]⟩⟩

/-- A single scannable directory named "CSA" with one question. -/
def dirCsa : DirState := ⟨"CSA", .parsed ⟨1, none⟩, "LC", .missing⟩

/-- World for the first full-reconciliation run. -/
def w1 : World := ⟨some [dirCsa], .missing⟩

/-- The manifest produced by the first run at time "T1". -/
def m1C : Manifest := (generate_manifest w1 "T1").getD noManifest

/-- The same data directory after the first run's manifest has been saved. -/
def w1b : World := ⟨some [dirCsa], .parsed m1C.toStored⟩

/-- The manifest produced by the second run at time "T2". -/
def m2C : Manifest := (generate_manifest w1b "T2").getD noManifest

/-! Theorems. -/

/-- C7: the classification function is pure and total by construction and
returns exactly the four documented values, with the exact-match table
checked first (high), then the fallback table (medium), then the fixed
default (low). -/
theorem classify_spec :
    detect_servicenow_domain "CIS-ITSM" = ("ITSM", "high") ∧
    detect_servicenow_domain "CIS-HAM" = ("Asset Management", "high") ∧
    detect_servicenow_domain "CIS-NEW-SECURITY" = ("Security", "medium") ∧
    detect_servicenow_domain "TOTALLY-UNKNOWN" = ("Infrastructure", "low") :=
  ⟨rfl, rfl, rfl, rfl⟩

/-- C10: the per-identifier scan is total (it is a Lean function) and yields
`none` exactly when the content file is missing, when reading or parsing it
fails, or when its question list is empty. -/
theorem scan_never_raises : ∀ (d : DirState) (now : String),
    scan_exam_directory d now = none ↔
      d.examJson = .missing ∨ d.examJson = .corrupt ∨
        ∃ j, d.examJson = .parsed j ∧ j.questions = 0 := by
  intro d now
  cases hd : d.examJson with
  | missing => simp [scan_exam_directory, hd]
  | corrupt => simp [scan_exam_directory, hd]
  | parsed j =>
    by_cases hq : j.questions = 0 <;> simp [scan_exam_directory, hd, hq]

/-- C3 counterexample: a directory with a five-question content file and a
sibling links record exactly as the dispatcher writes it (one bare string
link, no `last_updated` key) scans to an entry with NO `source` field at all:
the `l.get('scraped', False)` lookup raises on the string link and the bare
`except: pass` drops the whole summary. -/
theorem scan_source_counterexample :
    (scan_exam_directory dirStrLinks "T").map Entry.source = some none ∧
    lr3.links.length = 1 := ⟨rfl, rfl⟩

/-- C3 amended: when a sibling links record parses, the scanned entry's
`source` is present with `total_links` the number of links, `scraped_links`
the count of links flagged scraped and `last_scan` the record's
`last_updated` value (default "unknown") only when every link is an object;
if any link is a bare string — as in every dispatcher-written record — the
`source` field is absent. -/
theorem scan_source_amended : ∀ (d : DirState) (now : String) (j : ExamJson)
    (lj : LinksJson),
    d.examJson = .parsed j → j.questions ≠ 0 → d.linksJson = .parsed lj →
    (scan_exam_directory d now).map Entry.source =
      some (if lj.links.all LinkItem.isObj then
              some ⟨lj.links.length, (lj.links.filter LinkItem.isScraped).length,
                    lj.last_updated.getD "unknown"⟩
            else none) := by
  intro d now j lj hej hq hlj
  simp [scan_exam_directory, hej, hq, hlj, sourceInfoOf]

/-- C3 amended, witnessed on a record of three object links, two flagged
scraped, with a `last_updated` key. -/
theorem scan_source_amended_witness :
    (scan_exam_directory dirObjLinks "N").map Entry.source =
      some (some ⟨3, 2, "2024-05-05"⟩) := by
  have h := scan_source_amended dirObjLinks "N"
    ⟨2, some "Certified System Administrator"⟩
    ⟨[.obj true, .obj false, .obj true], some "2024-05-05"⟩ rfl (by decide) rfl
  exact h.trans (by decide)

/-- Any output of `sortLinks` is sorted ascending by the parsed question
number. -/
theorem sortLinks_sorted (l : List String) :
    List.Sorted (fun a b => linkKey a ≤ linkKey b) (sortLinks l) := by
  haveI h1 : IsTotal String (fun a b => linkKey a ≤ linkKey b) :=
    ⟨fun a b => Nat.le_total _ _⟩
  haveI h2 : IsTrans String (fun a b => linkKey a ≤ linkKey b) :=
    ⟨fun a b c hab hbc => Nat.le_trans hab hbc⟩
  exact List.sorted_insertionSort _ _

/-- C8: links discovered in the order question-5, question-1, question-10 are
collected as question-1, question-5, question-10; a link without a parseable
marker has key 0; and every per-exam list in a successful collection result
is sorted ascending by the parsed question number. -/
theorem link_order_spec :
    sortLinks ["https://x/question-5/", "https://x/question-1/",
               "https://x/question-10/"] =
      ["https://x/question-1/", "https://x/question-5/",
       "https://x/question-10/"] ∧
    linkKey "https://x/view/no-marker/" = 0 ∧
    ∀ (net : Net) (targets : List String) (r : CollectResult),
      batch_collect_servicenow_links net targets = .ok r →
      ∀ p ∈ r.links, List.Sorted (fun a b => linkKey a ≤ linkKey b) p.2 := by
  refine ⟨by decide, rfl, ?_⟩
  intro net targets r hok p hp
  cases hroot : net.root with
  | none => simp [batch_collect_servicenow_links, hroot] at hok
  | some rp =>
    cases hind : rp.indicator with
    | none => simp [batch_collect_servicenow_links, hroot, hind] at hok
    | some strongs =>
      by_cases hlen : strongs.length < 2
      · simp [batch_collect_servicenow_links, hroot, hind, hlen] at hok
      · cases hint : pyInt (strongs[1]?.getD "") with
        | none =>
          simp [batch_collect_servicenow_links, hroot, hind, hlen, hint] at hok
        | some n =>
          simp [batch_collect_servicenow_links, hroot, hind, hlen, hint] at hok
          rw [← hok] at hp
          obtain ⟨cl, _, rfl⟩ := List.mem_map.mp hp
          exact sortLinks_sorted _

/-- C8, witnessed on a concrete one-page listing whose titles appear in the
order question-5, question-1, question-10. -/
theorem link_order_spec_witness :
    List.Sorted (fun a b => linkKey a ≤ linkKey b)
      ["https://x/question-1/", "https://x/question-5/",
       "https://x/question-10/"] := by
  have h := link_order_spec.2.2 net8 ["A1"]
    ⟨[("A1", ["https://x/question-1/", "https://x/question-5/",
              "https://x/question-10/"])], [], 1⟩ rfl
    ("A1", ["https://x/question-1/", "https://x/question-5/",
            "https://x/question-10/"]) (by simp)
  exact h

/-- The skipped pages of the collection loop are exactly the pages whose
fetch failed, in page order, appended to whatever was already recorded. -/
theorem collectPages_skipped (net : Net) (targets : List String) :
    ∀ (ps : List Nat) (st : CollectState),
      (collectPages net targets ps st).skipped =
        st.skipped ++ ps.filter (fun p => (net.pages p).isNone) := by
  intro ps
  induction ps with
  | nil => intro st; simp [collectPages]
  | cons p ps ih =>
    intro st
    cases hp : net.pages p with
    | none => simp [collectPages, hp, ih, List.filter_cons]
    | some ts => simp [collectPages, hp, ih, List.filter_cons]

/-- C9: collection aborts (raises) when the listing root is unreachable, when
the page-count indicator is absent, when it has fewer than two strong tags, or
when its text is not an integer; but once the page count is known the loop
always completes, recording exactly the failed pages as skipped and
continuing over the rest. -/
theorem collect_fatal_vs_soft :
    (∀ (net : Net) (targets : List String), net.root = none →
      batch_collect_servicenow_links net targets =
        .error "Unable to access ServiceNow pages") ∧
    (∀ (net : Net) (targets : List String) (rp : RootPage),
      net.root = some rp → rp.indicator = none →
      batch_collect_servicenow_links net targets =
        .error "Page indicator not found") ∧
    (∀ (net : Net) (targets : List String) (rp : RootPage)
      (strongs : List String),
      net.root = some rp → rp.indicator = some strongs → strongs.length < 2 →
      batch_collect_servicenow_links net targets =
        .error "Unexpected page indicator format") ∧
    (∀ (net : Net) (targets : List String) (rp : RootPage)
      (strongs : List String),
      net.root = some rp → rp.indicator = some strongs →
      ¬ strongs.length < 2 → pyInt (strongs[1]?.getD "") = none →
      batch_collect_servicenow_links net targets =
        .error "invalid literal for int") ∧
    (∀ (net : Net) (targets : List String) (rp : RootPage)
      (strongs : List String) (n : Int),
      net.root = some rp → rp.indicator = some strongs →
      ¬ strongs.length < 2 → pyInt (strongs[1]?.getD "") = some n →
      (batch_collect_servicenow_links net targets).toOption.map
          CollectResult.skipped =
        some ((List.range' 1 n.toNat).filter (fun p => (net.pages p).isNone))) := by
  refine ⟨?_, ?_, ?_, ?_, ?_⟩
  · intro net targets h
    simp [batch_collect_servicenow_links, h]
  · intro net targets rp h hind
    simp [batch_collect_servicenow_links, h, hind]
  · intro net targets rp strongs h hind hlen
    simp [batch_collect_servicenow_links, h, hind, hlen]
  · intro net targets rp strongs h hind hlen hint
    simp [batch_collect_servicenow_links, h, hind, hlen, hint]
  · intro net targets rp strongs n h hind hlen hint
    simp [batch_collect_servicenow_links, h, hind, hlen, hint,
          collectPages_skipped]
    exact ⟨_, rfl, rfl⟩

/-- C9, witnessed: the four fatal shapes on concrete listings, and a 3-page
listing whose page 2 is down — collection succeeds, records page 2 as
skipped, and still returns the links found on pages 1 and 3. -/
theorem collect_fatal_vs_soft_witness :
    batch_collect_servicenow_links netRootDead ["A1"] =
      .error "Unable to access ServiceNow pages" ∧
    batch_collect_servicenow_links netNoInd ["A1"] =
      .error "Page indicator not found" ∧
    batch_collect_servicenow_links netShortInd ["A1"] =
      .error "Unexpected page indicator format" ∧
    batch_collect_servicenow_links netBadInt ["A1"] =
      .error "invalid literal for int" ∧
    (batch_collect_servicenow_links net3 ["A1"]).toOption.map
        CollectResult.skipped = some [2] ∧
    (batch_collect_servicenow_links net3 ["A1"]).toOption.map
        CollectResult.links =
      some [("A1", ["https://x/question-1/", "https://x/question-2/"])] :=
  ⟨collect_fatal_vs_soft.1 netRootDead ["A1"] rfl,
   collect_fatal_vs_soft.2.1 netNoInd ["A1"] ⟨none⟩ rfl rfl,
   collect_fatal_vs_soft.2.2.1 netShortInd ["A1"] ⟨some ["1"]⟩ ["1"] rfl rfl
     (by decide),
   collect_fatal_vs_soft.2.2.2.1 netBadInt ["A1"] ⟨some ["1", "lots"]⟩
     ["1", "lots"] rfl rfl (by decide) rfl,
   (collect_fatal_vs_soft.2.2.2.2 net3 ["A1"] ⟨some ["1", "3"]⟩ ["1", "3"] 3
     rfl rfl (by decide) rfl).trans (by rfl),
   rfl⟩

/-- The manifest assembled by `generate_manifest` always carries the freshly
recomputed aggregates. -/
theorem generate_totals (w : World) (now : String) (m : Manifest)
    (h : generate_manifest w now = some m) :
    m.totalExams = m.exams.length ∧
    m.totalQuestions = (m.exams.map Entry.questionCount).sum := by
  cases hd : w.dataDir with
  | none => simp [generate_manifest, hd] at h
  | some dirs =>
    simp only [generate_manifest, hd, Option.some.injEq] at h
    subst h
    exact ⟨rfl, rfl⟩

/-- Serializing scanned entries keeps their question counts summable. -/
theorem sumQC_map_toStored (l : List Entry) :
    sumQC (l.map Entry.toStored) = some ((l.map Entry.questionCount).sum) := by
  induction l with
  | nil => simp [sumQC]
  | cons e t ih => simp [sumQC, Entry.toStored, ih]

/-- What a successful `finishUpdate` guarantees about the saved manifest. -/
theorem finishUpdate_spec (om : StoredManifest) (l : List StoredEntry)
    (now : String) (m : StoredManifest) (h : finishUpdate om l now = some m) :
    m.exams = some l ∧ m.totalExams = some l.length ∧
    m.totalQuestions = sumQC l ∧ (sumQC l).isSome := by
  cases hs : sumQC l with
  | none => simp [finishUpdate, hs] at h
  | some s =>
    simp only [finishUpdate, hs, Option.some.injEq] at h
    subst h
    exact ⟨rfl, rfl, rfl, rfl⟩

/-- C5: every saved manifest satisfies `totalExams == len(exams)` and
`totalQuestions == sum(questionCount)`, recomputed on both the full
reconciliation path and the single-exam update path. -/
theorem totals_spec :
    (∀ (w : World) (now : String) (m : Manifest),
      generate_manifest w now = some m →
      m.totalExams = m.exams.length ∧
      m.totalQuestions = (m.exams.map Entry.questionCount).sum) ∧
    (∀ (w : World) (exam_code now : String) (m : StoredManifest),
      update_single_exam_in_manifest w exam_code now = some m →
      m.exams = some (m.exams.getD []) ∧
      m.totalExams = some (m.exams.getD []).length ∧
      m.totalQuestions = sumQC (m.exams.getD []) ∧
      (sumQC (m.exams.getD [])).isSome) := by
  constructor
  · exact generate_totals
  · intro w exam_code now m h
    cases hmf : w.manifestFile with
    | missing =>
      simp only [update_single_exam_in_manifest, hmf] at h
      cases hg : generate_manifest w now with
      | none => rw [hg] at h; simp at h
      | some mm =>
        rw [hg] at h
        simp only [Option.map_some', Option.some.injEq] at h
        subst h
        obtain ⟨h1, h2⟩ := generate_totals w now mm hg
        refine ⟨rfl, ?_, ?_, ?_⟩
        · show some mm.totalExams = some (mm.exams.map Entry.toStored).length
          rw [List.length_map]
          exact congrArg _ h1
        · show some mm.totalQuestions = sumQC (mm.exams.map Entry.toStored)
          rw [sumQC_map_toStored]
          exact congrArg _ h2
        · show (sumQC (mm.exams.map Entry.toStored)).isSome = true
          rw [sumQC_map_toStored]
          rfl
    | corrupt => simp [update_single_exam_in_manifest, hmf] at h
    | parsed om =>
      cases hfd : findDir w exam_code with
      | none => simp [update_single_exam_in_manifest, hmf, hfd] at h
      | some d =>
        cases hscan : scan_exam_directory d now with
        | none => simp [update_single_exam_in_manifest, hmf, hfd, hscan] at h
        | some e =>
          cases hrep : replaceEntry exam_code e (om.exams.getD []) with
          | some exams' =>
            simp only [update_single_exam_in_manifest, hmf, hfd, hscan,
                       hrep] at h
            obtain ⟨h1, h2, h3, h4⟩ := finishUpdate_spec om exams' now m h
            simp [h1, h2, h3, h4]
          | none =>
            cases hsort : sortStored (om.exams.getD [] ++ [e.toStored]) with
            | none =>
              simp [update_single_exam_in_manifest, hmf, hfd, hscan, hrep,
                    hsort] at h
            | some sorted =>
              simp only [update_single_exam_in_manifest, hmf, hfd, hscan,
                         hrep, hsort] at h
              obtain ⟨h1, h2, h3, h4⟩ := finishUpdate_spec om sorted now m h
              simp [h1, h2, h3, h4]

/-- C5, witnessed on a concrete generation over two directories and a
concrete single-exam update. -/
theorem totals_spec_witness :
    (((generate_manifest w6a "N").getD noManifest).totalExams =
      ((generate_manifest w6a "N").getD noManifest).exams.length ∧
     ((generate_manifest w6a "N").getD noManifest).totalQuestions =
      (((generate_manifest w6a "N").getD noManifest).exams.map
        Entry.questionCount).sum) ∧
    (((update_single_exam_in_manifest w5b "A1" "N").getD noStored).totalExams =
      some (((update_single_exam_in_manifest w5b "A1" "N").getD
        noStored).exams.getD []).length ∧
     ((update_single_exam_in_manifest w5b "A1" "N").getD
        noStored).totalQuestions =
      sumQC (((update_single_exam_in_manifest w5b "A1" "N").getD
        noStored).exams.getD [])) :=
  ⟨totals_spec.1 w6a "N" _ rfl,
   (totals_spec.2 w5b "A1" "N" _ rfl).2.1,
   (totals_spec.2 w5b "A1" "N" _ rfl).2.2.1⟩

/-- `lexLe` is total. -/
theorem lexLe_total : ∀ (a b : List Nat), lexLe a b = true ∨ lexLe b a = true := by
  intro a
  induction a with
  | nil => intro b; left; simp [lexLe]
  | cons x xs ih =>
    intro b
    cases b with
    | nil => right; simp [lexLe]
    | cons y ys =>
      rcases Nat.lt_trichotomy x y with h | h | h
      · left; simp [lexLe, h]
      · subst h
        rcases ih ys with h' | h'
        · left; simp [lexLe, Nat.lt_irrefl, h']
        · right; simp [lexLe, Nat.lt_irrefl, h']
      · right; simp [lexLe, h]

/-- `lexLe` is transitive. -/
theorem lexLe_trans : ∀ (a b c : List Nat),
    lexLe a b = true → lexLe b c = true → lexLe a c = true := by
  intro a
  induction a with
  | nil => intro b c _ _; simp [lexLe]
  | cons x xs ih =>
    intro b c hab hbc
    cases b with
    | nil => simp [lexLe] at hab
    | cons y ys =>
      cases c with
      | nil => simp [lexLe] at hbc
      | cons z zs =>
        by_cases hxy : x < y
        · by_cases hyz : y < z
          · simp [lexLe, Nat.lt_trans hxy hyz]
          · by_cases hzy : z < y
            · simp [lexLe, hyz, hzy] at hbc
            · have heq : y = z :=
                Nat.le_antisymm (Nat.le_of_not_lt hzy) (Nat.le_of_not_lt hyz)
              subst heq
              simp [lexLe, hxy]
        · by_cases hyx : y < x
          · simp [lexLe, hxy, hyx] at hab
          · have heq : x = y :=
              Nat.le_antisymm (Nat.le_of_not_lt hyx) (Nat.le_of_not_lt hxy)
            subst heq
            simp only [lexLe, Nat.lt_irrefl, if_false] at hab
            by_cases hxz : x < z
            · simp [lexLe, hxz]
            · by_cases hzx : z < x
              · simp [lexLe, hxz, hzx] at hbc
              · have heq : x = z :=
                  Nat.le_antisymm (Nat.le_of_not_lt hzx) (Nat.le_of_not_lt hxz)
                subst heq
                simp only [lexLe, Nat.lt_irrefl, if_false] at hbc ⊢
                exact ih ys zs hab hbc

instance : IsTotal Entry entryLe := ⟨fun a b => lexLe_total _ _⟩

instance : IsTrans Entry entryLe := ⟨fun _ _ _ => lexLe_trans _ _ _⟩

instance : IsTotal StoredEntry storedLe := ⟨fun a b => lexLe_total _ _⟩

instance : IsTrans StoredEntry storedLe := ⟨fun _ _ _ => lexLe_trans _ _ _⟩

/-- A failed replacement is exactly an absent code. -/
theorem replaceEntry_none_iff (c : String) (e : Entry) :
    ∀ xs : List StoredEntry,
      replaceEntry c e xs = none ↔ findCodeIdx c xs = none := by
  intro xs
  induction xs with
  | nil => simp [replaceEntry, findCodeIdx]
  | cons x t ih =>
    by_cases hx : x.code == some c
    · simp [replaceEntry, findCodeIdx, hx]
    · simp [replaceEntry, findCodeIdx, hx, ih]

/-- A successful replacement puts the refreshed entry at the index of the
first code match and leaves every other position unchanged. -/
theorem replaceEntry_eq_set (c : String) (e : Entry) :
    ∀ (xs : List StoredEntry) (i : Nat),
      findCodeIdx c xs = some i →
      replaceEntry c e xs = some (xs.set i (updatedEntryStored xs i e)) := by
  intro xs
  induction xs with
  | nil => intro i h; simp [findCodeIdx] at h
  | cons x t ih =>
    intro i h
    by_cases hx : x.code == some c
    · simp only [findCodeIdx, hx, if_true, Option.some.injEq] at h
      subst h
      simp [replaceEntry, hx, updatedEntryStored]
    · simp only [findCodeIdx, hx, if_false, Bool.false_eq_true] at h
      obtain ⟨i', hi', rfl⟩ := Option.map_eq_some'.mp h
      simp [replaceEntry, hx, ih i' hi', updatedEntryStored]

/-- C6: after full reconciliation the exam list is sorted ascending by code;
a single-exam update of an already-present code replaces that entry at its
current position without re-sorting, and re-sorts the whole list only when
the code was absent and the entry is appended. -/
theorem sort_asymmetry :
    (∀ (w : World) (now : String) (m : Manifest),
      generate_manifest w now = some m → List.Sorted entryLe m.exams) ∧
    (∀ (w : World) (exam_code now : String) (m om : StoredManifest)
       (d : DirState) (e : Entry) (i : Nat),
      w.manifestFile = .parsed om →
      findDir w exam_code = some d →
      scan_exam_directory d now = some e →
      findCodeIdx exam_code (om.exams.getD []) = some i →
      update_single_exam_in_manifest w exam_code now = some m →
      m.exams = some ((om.exams.getD []).set i
        (updatedEntryStored (om.exams.getD []) i e))) ∧
    (∀ (w : World) (exam_code now : String) (m om : StoredManifest)
       (d : DirState) (e : Entry),
      w.manifestFile = .parsed om →
      findDir w exam_code = some d →
      scan_exam_directory d now = some e →
      findCodeIdx exam_code (om.exams.getD []) = none →
      update_single_exam_in_manifest w exam_code now = some m →
      m.exams = sortStored (om.exams.getD [] ++ [e.toStored])) := by
  refine ⟨?_, ?_, ?_⟩
  · intro w now m h
    cases hd : w.dataDir with
    | none => simp [generate_manifest, hd] at h
    | some dirs =>
      simp only [generate_manifest, hd, Option.some.injEq] at h
      subst h
      exact List.sorted_insertionSort entryLe _
  · intro w exam_code now m om d e i hmf hfd hscan hidx h
    have hrep := replaceEntry_eq_set exam_code e (om.exams.getD []) i hidx
    simp only [update_single_exam_in_manifest, hmf, hfd, hscan, hrep] at h
    exact (finishUpdate_spec om _ now m h).1
  · intro w exam_code now m om d e hmf hfd hscan hidx h
    have hrep := (replaceEntry_none_iff exam_code e (om.exams.getD [])).mpr hidx
    cases hsort : sortStored (om.exams.getD [] ++ [e.toStored]) with
    | none =>
      simp [update_single_exam_in_manifest, hmf, hfd, hscan, hrep, hsort] at h
    | some sorted =>
      simp only [update_single_exam_in_manifest, hmf, hfd, hscan, hrep,
                 hsort] at h
      exact (finishUpdate_spec om _ now m h).1

/-- C6, witnessed: a concrete generation is sorted; updating the middle entry
"B" of [A, B, C] replaces position 1 in place; updating the absent "D"
appends and re-sorts. -/
theorem sort_asymmetry_witness :
    List.Sorted entryLe ((generate_manifest w6a "N").getD noManifest).exams ∧
    ((update_single_exam_in_manifest w6b "B" "N").getD noStored).exams =
      some ((om6.exams.getD []).set 1 (updatedEntryStored (om6.exams.getD []) 1
        ((scan_exam_directory dirB "N").getD noEntry))) ∧
    ((update_single_exam_in_manifest w6c "D" "N").getD noStored).exams =
      sortStored (om6.exams.getD [] ++
        [((scan_exam_directory dirD "N").getD noEntry).toStored]) :=
  ⟨sort_asymmetry.1 w6a "N" _ rfl,
   sort_asymmetry.2.1 w6b "B" "N" _ om6 dirB _ 1 rfl rfl rfl rfl rfl,
   sort_asymmetry.2.2 w6c "D" "N" _ om6 dirD _ rfl rfl rfl rfl rfl⟩

/-- C4 counterexample: the single-exam update path calls no validation at
all — updating "A1" over an on-disk manifest whose required top-level
`version` field is missing happily saves a manifest that still fails
`validate_manifest`, instead of aborting the save. -/
theorem validate_gate_counterexample :
    (update_single_exam_in_manifest w4 "A1" "N").map validate_manifest =
      some false ∧ om4.version = none := ⟨rfl, rfl⟩

/-- C4 amended: only the full-generation entry point (`main`) validates before
persisting — there a missing required field aborts with nothing written; the
single-exam update path performs no validation and can save a manifest with a
missing required field. -/
theorem mainSave_validates : ∀ (w : World) (now : String) (m : StoredManifest),
    mainSave w now = some m → validate_manifest m = true := by
  intro w now m h
  cases hg : generate_manifest w now with
  | none => simp [mainSave, hg] at h
  | some mm =>
    simp only [mainSave, hg] at h
    by_cases hv : validate_manifest mm.toStored
    · simp only [hv, if_true, Option.some.injEq] at h
      subst h
      exact hv
    · simp [hv] at h

/-- C4 amended, witnessed on a concrete full-generation run. -/
theorem mainSave_validates_witness :
    validate_manifest ((mainSave w1 "N").getD noStored) = true :=
  mainSave_validates w1 "N" _ rfl

/-- `find?` mapped through `descOf` is determined by any matching member when
all matching members agree on the description. -/
theorem find_map_descOf (p : StoredEntry → Bool) :
    ∀ (l : List StoredEntry) (x : StoredEntry), x ∈ l → p x = true →
      (∀ y ∈ l, p y = true → descOf y = descOf x) →
      (l.find? p).map descOf = some (descOf x) := by
  intro l
  induction l with
  | nil => intro x hx; simp at hx
  | cons a t ih =>
    intro x hx hpx huniq
    by_cases hpa : p a = true
    · rw [List.find?_cons_of_pos _ hpa]
      simp [huniq a (List.mem_cons_self a t) hpa]
    · rw [List.find?_cons_of_neg _ (by simpa using hpa)]
      rcases List.mem_cons.mp hx with rfl | hx'
      · exact absurd hpx hpa
      · exact ih x hx' hpx fun y hy hpy => huniq y (List.mem_cons_of_mem _ hy) hpy

/-- What membership in the description lookup means when codes are unique:
the lookup returns exactly the member's own description. -/
theorem lookupDesc_eq (l : List StoredEntry) (x : StoredEntry) (c : String)
    (hnd : (l.map StoredEntry.code).Nodup) (hx : x ∈ l) (hc : x.code = some c)
    (hc0 : c ≠ "") (hd : descOf x ≠ "") : lookupDesc l c = some (descOf x) := by
  unfold lookupDesc
  apply find_map_descOf _ l.reverse x (by simpa using hx)
  · simp [hc, hc0, hd]
  · intro y hy hpy
    have hy' : y ∈ l := by simpa using hy
    have hyc : y.code = some c := by
      have h1 := (Bool.and_eq_true _ _).mp hpy
      have h2 := (Bool.and_eq_true _ _).mp h1.1
      simpa using h2.1
    have : y = x :=
      List.inj_on_of_nodup_map hnd hy' hx (by rw [hyc, hc])
    rw [this]

/-- When the lookup misses, the lookup is `none` — and `applyDesc` keeps the
scanned entry untouched. -/
theorem applyDesc_of_none (old : List StoredEntry) (e : Entry)
    (h : lookupDesc old e.code = none) : applyDesc old e = e := by
  simp [applyDesc, h]

/-- `applyDesc` never changes the entry's code. -/
theorem applyDesc_code (old : List StoredEntry) (e : Entry) :
    (applyDesc old e).code = e.code := by
  unfold applyDesc
  cases lookupDesc old e.code <;> rfl

/-- The scanned entry's code is the directory name. -/
theorem scan_code (d : DirState) (now : String) (e : Entry)
    (h : scan_exam_directory d now = some e) : e.code = d.name := by
  cases hj : d.examJson with
  | missing => simp [scan_exam_directory, hj] at h
  | corrupt => simp [scan_exam_directory, hj] at h
  | parsed j =>
    by_cases hq : j.questions = 0
    · simp [scan_exam_directory, hj, hq] at h
    · simp only [scan_exam_directory, hj, hq, if_false, Option.some.injEq] at h
      rw [← h]

/-- The scanned entry's description is the generated default. -/
theorem scan_desc (d : DirState) (now : String) (e : Entry)
    (h : scan_exam_directory d now = some e) :
    e.description = e.name ++ " certification exam questions" := by
  cases hj : d.examJson with
  | missing => simp [scan_exam_directory, hj] at h
  | corrupt => simp [scan_exam_directory, hj] at h
  | parsed j =>
    by_cases hq : j.questions = 0
    · simp [scan_exam_directory, hj, hq] at h
    · simp only [scan_exam_directory, hj, hq, if_false, Option.some.injEq] at h
      rw [← h]

/-- A string extended by the non-empty default suffix is never empty. -/
theorem append_suffix_ne (s : String) :
    s ++ " certification exam questions" ≠ "" := by
  intro h
  have h2 : (s ++ " certification exam questions").data = [] := by rw [h]
  rw [String.data_append] at h2
  rcases List.append_eq_nil.mp h2 with ⟨_, h3⟩
  simp at h3

/-- A description delivered by the lookup is never empty. -/
theorem lookupDesc_ne (l : List StoredEntry) (c d_ : String)
    (h : lookupDesc l c = some d_) : d_ ≠ "" := by
  unfold lookupDesc at h
  obtain ⟨y, hy, hdy⟩ := Option.map_eq_some'.mp h
  have hp := List.find?_some hy
  have : descOf y ≠ "" := by
    have h1 := (Bool.and_eq_true _ _).mp hp
    simpa using h1.2
  rw [← hdy]
  exact this

/-- `findCodeIdx` misses exactly when no entry carries the code. -/
theorem findCodeIdx_none_iff (c : String) :
    ∀ xs : List StoredEntry,
      findCodeIdx c xs = none ↔ ∀ y ∈ xs, ¬ y.code = some c := by
  intro xs
  induction xs with
  | nil => simp [findCodeIdx]
  | cons x t ih =>
    by_cases hx : x.code == some c
    · constructor
      · intro h
        simp [findCodeIdx, hx] at h
      · intro hall
        exact absurd (show x.code = some c by simpa using hx)
          (hall x (List.mem_cons_self x t))
    · simp only [findCodeIdx, hx, if_false, Bool.false_eq_true,
                 Option.map_eq_none', ih]
      constructor
      · intro h y hy
        rcases List.mem_cons.mp hy with rfl | hy'
        · simpa using hx
        · exact h y hy'
      · intro h y hy
        exact h y (List.mem_cons_of_mem _ hy)

/-- A successful `findCodeIdx` points at an entry carrying the code. -/
theorem findCodeIdx_spec (c : String) :
    ∀ (xs : List StoredEntry) (i : Nat), findCodeIdx c xs = some i →
      ∃ old, xs[i]? = some old ∧ old.code = some c := by
  intro xs
  induction xs with
  | nil => intro i h; simp [findCodeIdx] at h
  | cons x t ih =>
    intro i h
    by_cases hx : x.code == some c
    · simp only [findCodeIdx, hx, if_true, Option.some.injEq] at h
      subst h
      exact ⟨x, by simp, by simpa using hx⟩
    · simp only [findCodeIdx, hx, if_false, Bool.false_eq_true] at h
      obtain ⟨i', hi', rfl⟩ := Option.map_eq_some'.mp h
      obtain ⟨old, h1, h2⟩ := ih i' hi'
      exact ⟨old, by simpa using h1, h2⟩

/-- The directory found for an exam code carries that name. -/
theorem findDir_name (w : World) (code : String) (d : DirState)
    (h : findDir w code = some d) : d.name = code := by
  have := List.find?_some h
  simpa using this

/-- Membership is preserved by the stored-entry sort. -/
theorem sortStored_mem (l0 ls : List StoredEntry) (y : StoredEntry)
    (h : sortStored l0 = some ls) : y ∈ ls ↔ y ∈ l0 := by
  unfold sortStored at h
  by_cases hall : l0.all (fun e => e.code.isSome)
  · simp only [hall, if_true, Option.some.injEq] at h
    rw [← h]
    exact (List.perm_insertionSort storedLe l0).mem_iff
  · simp [hall] at h

/-- C2: descriptions are operator-owned.  On both reconciliation paths an
entry whose stored description is non-empty keeps it verbatim; the generated
default `"{name} certification exam questions"` is written only for entries
with no prior non-empty description (fresh scans whose lookup misses, and
replaced or appended entries whose prior description was empty). -/
theorem desc_preserved :
    (∀ (w : World) (now : String) (m : Manifest) (om : StoredManifest)
       (x : StoredEntry) (c d_ : String),
      w.manifestFile = .parsed om →
      ((om.exams.getD []).map StoredEntry.code).Nodup →
      (∀ dir ∈ w.dataDir.getD [], dir.name ≠ "") →
      generate_manifest w now = some m →
      x ∈ om.exams.getD [] → x.code = some c → x.description = some d_ →
      d_ ≠ "" →
      ∀ e ∈ m.exams, e.code = c → e.description = d_) ∧
    (∀ (w : World) (now : String) (m : Manifest) (e : Entry),
      generate_manifest w now = some m → e ∈ m.exams →
      lookupDesc ((loadedOld w).exams.getD []) e.code = none →
      e.description = e.name ++ " certification exam questions") ∧
    (∀ (w : World) (exam_code now : String) (m om : StoredManifest)
       (x : StoredEntry) (c d_ : String) (l : List StoredEntry),
      w.manifestFile = .parsed om →
      ((om.exams.getD []).map StoredEntry.code).Nodup →
      update_single_exam_in_manifest w exam_code now = some m →
      m.exams = some l →
      x ∈ om.exams.getD [] → x.code = some c → x.description = some d_ →
      d_ ≠ "" →
      ∀ y ∈ l, y.code = some c → y.description = some d_) ∧
    (∀ (xs : List StoredEntry) (i : Nat) (e : Entry) (d : DirState)
       (now : String),
      scan_exam_directory d now = some e →
      xs[i]?.map descOf = some "" →
      updatedEntryStored xs i e = e.toStored ∧
      e.description = e.name ++ " certification exam questions") ∧
    (∀ (d : DirState) (now : String) (e : Entry),
      scan_exam_directory d now = some e →
      e.toStored.description =
        some (e.name ++ " certification exam questions")) := by
  refine ⟨?_, ?_, ?_, ?_, ?_⟩
  · intro w now m om x c d_ hmf hnd hne hgen hx hxc hxd hd0 e he hec
    cases hd : w.dataDir with
    | none => simp [generate_manifest, hd] at hgen
    | some dirs =>
      simp only [generate_manifest, hd, Option.some.injEq] at hgen
      subst hgen
      have he2 := ((List.perm_insertionSort entryLe _).mem_iff).mp he
      obtain ⟨e0, he0, rfl⟩ := List.mem_map.mp he2
      obtain ⟨dir, hdirmem, hscan⟩ := List.mem_filterMap.mp he0
      have hdir2 : dir ∈ dirs := List.mem_of_mem_filter hdirmem
      have hname : dir.name ≠ "" := hne dir (by simpa [hd] using hdir2)
      have hec0 : e0.code = c := by rw [applyDesc_code] at hec; exact hec
      have hc0 : c ≠ "" := by
        rw [← hec0, scan_code dir now e0 hscan]
        exact hname
      have hlo : loadedOld w = om := by simp [loadedOld, hmf]
      have hdx : descOf x = d_ := by simp [descOf, hxd]
      have hlk : lookupDesc (om.exams.getD []) c = some d_ := by
        have h := lookupDesc_eq (om.exams.getD []) x c hnd hx hxc hc0
          (by rw [hdx]; exact hd0)
        rwa [hdx] at h
      show (applyDesc ((loadedOld w).exams.getD []) e0).description = d_
      rw [hlo]
      simp [applyDesc, hec0, hlk]
  · intro w now m e hgen he hlkn
    cases hd : w.dataDir with
    | none => simp [generate_manifest, hd] at hgen
    | some dirs =>
      simp only [generate_manifest, hd, Option.some.injEq] at hgen
      subst hgen
      have he2 := ((List.perm_insertionSort entryLe _).mem_iff).mp he
      obtain ⟨e0, he0, rfl⟩ := List.mem_map.mp he2
      obtain ⟨dir, _, hscan⟩ := List.mem_filterMap.mp he0
      rw [applyDesc_code] at hlkn
      have heq := applyDesc_of_none ((loadedOld w).exams.getD []) e0 hlkn
      rw [heq]
      exact scan_desc dir now e0 hscan
  · intro w exam_code now m om x c d_ l hmf hnd hupd hexams hx hxc hxd hd0 y hy hyc
    have hdx : descOf x = d_ := by simp [descOf, hxd]
    cases hfd : findDir w exam_code with
    | none => simp [update_single_exam_in_manifest, hmf, hfd] at hupd
    | some d =>
      cases hscan : scan_exam_directory d now with
      | none => simp [update_single_exam_in_manifest, hmf, hfd, hscan] at hupd
      | some e =>
        have hecode : e.code = exam_code := by
          rw [scan_code d now e hscan]
          exact findDir_name w exam_code d hfd
        cases hidx : findCodeIdx exam_code (om.exams.getD []) with
        | some i =>
          have hrep := replaceEntry_eq_set exam_code e (om.exams.getD []) i hidx
          simp only [update_single_exam_in_manifest, hmf, hfd, hscan,
                     hrep] at hupd
          have hms := (finishUpdate_spec om _ now m hupd).1
          have hl := Option.some.inj (hexams.symm.trans hms)
          subst hl
          rcases List.mem_or_eq_of_mem_set hy with hy' | rfl
          · have hxy : y = x := List.inj_on_of_nodup_map hnd hy' hx
              (by rw [hyc, hxc])
            rw [hxy, hxd]
          · obtain ⟨old, hold, holdc⟩ := findCodeIdx_spec exam_code _ i hidx
            have hce : c = exam_code := by
              have huc : (updatedEntryStored (om.exams.getD []) i e).code =
                  some e.code := by
                unfold updatedEntryStored
                rw [hold]
                by_cases hdo : descOf old != "" <;> simp [hdo, Entry.toStored]
              rw [huc] at hyc
              have := Option.some.inj hyc
              rw [← this, hecode]
            have holdmem : old ∈ om.exams.getD [] := List.getElem?_mem hold
            have holdx : old = x := List.inj_on_of_nodup_map hnd holdmem hx
              (by rw [holdc, hxc, hce])
            have hdo : descOf old = d_ := by rw [holdx, hdx]
            show (updatedEntryStored (om.exams.getD []) i e).description =
              some d_
            unfold updatedEntryStored
            rw [hold]
            simp [hdo, hd0, Entry.toStored]
        | none =>
          have hrep := (replaceEntry_none_iff exam_code e
            (om.exams.getD [])).mpr hidx
          cases hsort : sortStored (om.exams.getD [] ++ [e.toStored]) with
          | none =>
            simp [update_single_exam_in_manifest, hmf, hfd, hscan, hrep,
                  hsort] at hupd
          | some sorted =>
            simp only [update_single_exam_in_manifest, hmf, hfd, hscan, hrep,
                       hsort] at hupd
            have hms := (finishUpdate_spec om _ now m hupd).1
            have hl := Option.some.inj (hexams.symm.trans hms)
            subst hl
            have hy2 := (sortStored_mem _ _ y hsort).mp hy
            rcases List.mem_append.mp hy2 with hy' | hy'
            · have hxy : y = x := List.inj_on_of_nodup_map hnd hy' hx
                (by rw [hyc, hxc])
              rw [hxy, hxd]
            · have hye : y = e.toStored := by simpa using hy'
              have hce : c = exam_code := by
                rw [hye] at hyc
                have := Option.some.inj hyc
                rw [← this, hecode]
              have habs := (findCodeIdx_none_iff exam_code
                (om.exams.getD [])).mp hidx x hx
              rw [hce] at hxc
              exact absurd hxc habs
  · intro xs i e d now hscan hdesc
    obtain ⟨old, hold, holdd⟩ := Option.map_eq_some'.mp hdesc
    constructor
    · unfold updatedEntryStored
      rw [hold]
      simp [holdd]
    · exact scan_desc d now e hscan
  · intro d now e hscan
    show e.toStored.description = some (e.name ++ " certification exam questions")
    simp [Entry.toStored, scan_desc d now e hscan]

/-- C2, witnessed: a custom description survives both a full re-generation and
a single-exam update; a fresh scan with no prior description, a replaced entry
whose prior description was empty, and an appended entry all carry the
generated default. -/
theorem desc_preserved_witness :
    (((generate_manifest w2a "N").getD noManifest).exams.getD 0
        noEntry).description = "Custom text" ∧
    (((generate_manifest w1 "T1").getD noManifest).exams.getD 0
        noEntry).description =
      (((generate_manifest w1 "T1").getD noManifest).exams.getD 0
        noEntry).name ++ " certification exam questions" ∧
    ((((update_single_exam_in_manifest w2b "A1" "N").getD noStored).exams.getD
        []).getD 0 ⟨none, none, none, none, none⟩).description =
      some "Custom text" ∧
    (updatedEntryStored [⟨some "A1", some "A1", some "", some 5, some "L0"⟩] 0
        ((scan_exam_directory dirA1 "N").getD noEntry) =
      ((scan_exam_directory dirA1 "N").getD noEntry).toStored ∧
     ((scan_exam_directory dirA1 "N").getD noEntry).description =
      ((scan_exam_directory dirA1 "N").getD noEntry).name ++
        " certification exam questions") ∧
    ((scan_exam_directory dirA1 "N").getD noEntry).toStored.description =
      some (((scan_exam_directory dirA1 "N").getD noEntry).name ++
        " certification exam questions") := by
  refine ⟨?_, ?_, ?_, ?_, ?_⟩
  · exact desc_preserved.1 w2a "N" _ om2
      ⟨some "A1", some "A1", some "Custom text", some 5, some "L0"⟩ "A1"
      "Custom text" rfl (by decide) (by decide) rfl (by decide) rfl rfl
      (by decide) _ (by decide) rfl
  · exact desc_preserved.2.1 w1 "T1" _ _ rfl (by decide) rfl
  · exact desc_preserved.2.2.1 w2b "A1" "N" _ om2
      ⟨some "A1", some "A1", some "Custom text", some 5, some "L0"⟩ "A1"
      "Custom text" _ rfl (by decide) rfl rfl (by decide) rfl rfl (by decide)
      _ (by decide) rfl
  · exact desc_preserved.2.2.2.1 _ 0 _ dirA1 "N" rfl rfl
  · exact desc_preserved.2.2.2.2 dirA1 "N" _ rfl

/-- `retime` keeps the code. -/
theorem retime_code (t : String) (e : Entry) : (retime t e).code = e.code := rfl

/-- `retime` keeps the question count. -/
theorem retime_questionCount (t : String) (e : Entry) :
    (retime t e).questionCount = e.questionCount := rfl

/-- The description lookup never hits the empty code (the `if exam_code`
truthiness guard). -/
theorem lookupDesc_empty (l : List StoredEntry) : lookupDesc l "" = none := by
  unfold lookupDesc
  rw [List.find?_eq_none.mpr]
  · rfl
  · intro x _
    simp

/-- Scanning the same directory at another time changes only the
`detectedAt` stamp. -/
theorem scan_retime (d : DirState) (t1 t2 : String) :
    scan_exam_directory d t2 = (scan_exam_directory d t1).map (retime t2) := by
  cases hj : d.examJson with
  | missing => simp [scan_exam_directory, hj]
  | corrupt => simp [scan_exam_directory, hj]
  | parsed j =>
    by_cases hq : j.questions = 0
    · simp [scan_exam_directory, hj, hq]
    · simp [scan_exam_directory, hj, hq, retime]

/-- Re-scanning a directory list at another time retimes every entry. -/
theorem filterMap_retime (t1 t2 : String) : ∀ (l : List DirState),
    l.filterMap (fun d => scan_exam_directory d t2) =
      (l.filterMap (fun d => scan_exam_directory d t1)).map (retime t2) := by
  intro l
  induction l with
  | nil => rfl
  | cons d tl ih =>
    rw [List.filterMap_cons, List.filterMap_cons, scan_retime d t1 t2]
    cases hs : scan_exam_directory d t1 with
    | none => simpa using ih
    | some e => simp [ih]

/-- The scanned entries' codes are drawn from the directory names, in order. -/
theorem scanned_codes_sublist (t : String) : ∀ (l : List DirState),
    List.Sublist
      ((l.filterMap (fun d => scan_exam_directory d t)).map Entry.code)
      (l.map DirState.name) := by
  intro l
  induction l with
  | nil => simp
  | cons d tl ih =>
    rw [List.filterMap_cons]
    cases hs : scan_exam_directory d t with
    | none =>
      rw [List.map_cons]
      exact ih.cons d.name
    | some e =>
      rw [List.map_cons, List.map_cons, scan_code d t e hs]
      exact ih.cons₂ d.name

/-- Inserting retimed entries commutes with retiming, since the order only
reads the (unchanged) code. -/
theorem orderedInsert_retime (t : String) : ∀ (l : List Entry) (a : Entry),
    List.orderedInsert entryLe (retime t a) (l.map (retime t)) =
      (List.orderedInsert entryLe a l).map (retime t) := by
  intro l
  induction l with
  | nil => intro a; rfl
  | cons b tl ih =>
    intro a
    by_cases hab : entryLe a b
    · rw [List.map_cons, List.orderedInsert, List.orderedInsert, if_pos hab,
          if_pos (show entryLe (retime t a) (retime t b) from hab)]
      simp
    · rw [List.map_cons, List.orderedInsert, List.orderedInsert, if_neg hab,
          if_neg (show ¬ entryLe (retime t a) (retime t b) from hab)]
      simp [ih a]

/-- Sorting retimed entries retimes the sorted list. -/
theorem sortEntries_retime (t : String) : ∀ (l : List Entry),
    sortEntries (l.map (retime t)) = (sortEntries l).map (retime t) := by
  intro l
  induction l with
  | nil => rfl
  | cons a tl ih =>
    show List.orderedInsert entryLe (retime t a)
        (List.insertionSort entryLe (tl.map (retime t))) = _
    rw [show List.insertionSort entryLe (tl.map (retime t)) =
          sortEntries (tl.map (retime t)) from rfl, ih]
    exact orderedInsert_retime t (sortEntries tl) a

/-- The second scan of an unchanged directory list, reading its descriptions
from the first run's saved manifest, reproduces the first run's entries up to
the `detectedAt` stamp. -/
theorem second_scan_entries (fdirs : List DirState) (old1 : List StoredEntry)
    (t1 t2 : String)
    (hnd : ((fdirs.filterMap
      (fun d => scan_exam_directory d t1)).map Entry.code).Nodup) :
    (fdirs.filterMap (fun d => scan_exam_directory d t2)).map
        (applyDesc ((sortEntries ((fdirs.filterMap
          (fun d => scan_exam_directory d t1)).map
            (applyDesc old1))).map Entry.toStored)) =
      ((fdirs.filterMap (fun d => scan_exam_directory d t1)).map
        (applyDesc old1)).map (retime t2) := by
  rw [filterMap_retime t1 t2 fdirs, List.map_map, List.map_map]
  apply List.map_congr_left
  intro e0 he0
  show applyDesc _ (retime t2 e0) = retime t2 (applyDesc old1 e0)
  obtain ⟨dir, hdirmem, hscan⟩ := List.mem_filterMap.mp he0
  by_cases hc : e0.code = ""
  · rw [applyDesc_of_none _ _ (by rw [retime_code, hc]; exact lookupDesc_empty _),
        applyDesc_of_none _ _ (by rw [hc]; exact lookupDesc_empty _)]
  · have hdesc1 : (applyDesc old1 e0).description ≠ "" := by
      unfold applyDesc
      cases hl : lookupDesc old1 e0.code with
      | some dd => exact lookupDesc_ne old1 e0.code dd hl
      | none =>
        show e0.description ≠ ""
        rw [scan_desc dir t1 e0 hscan]
        exact append_suffix_ne _
    have he1 : applyDesc old1 e0 ∈ sortEntries ((fdirs.filterMap
        (fun d => scan_exam_directory d t1)).map (applyDesc old1)) :=
      ((List.perm_insertionSort entryLe _).mem_iff).mpr
        (List.mem_map_of_mem _ he0)
    have hmem2 := List.mem_map_of_mem Entry.toStored he1
    have hnd2 : (((sortEntries ((fdirs.filterMap
        (fun d => scan_exam_directory d t1)).map
          (applyDesc old1))).map Entry.toStored).map StoredEntry.code).Nodup := by
      rw [List.map_map]
      have hperm := (List.perm_insertionSort entryLe ((fdirs.filterMap
        (fun d => scan_exam_directory d t1)).map (applyDesc old1))).map
          (StoredEntry.code ∘ Entry.toStored)
      apply hperm.nodup_iff.mpr
      rw [List.map_map]
      have hpt : ((fdirs.filterMap (fun d => scan_exam_directory d t1)).map
          ((StoredEntry.code ∘ Entry.toStored) ∘ applyDesc old1)) =
          ((fdirs.filterMap (fun d => scan_exam_directory d t1)).map
            (Option.some ∘ Entry.code)) :=
        List.map_congr_left fun e _ => by
          show some (applyDesc old1 e).code = some e.code
          exact congrArg _ (applyDesc_code old1 e)
      rw [hpt, ← List.map_map]
      exact hnd.map (Option.some_injective _)
    have hcode2 : (applyDesc old1 e0).toStored.code = some e0.code := by
      show some (applyDesc old1 e0).code = some e0.code
      exact congrArg _ (applyDesc_code old1 e0)
    have hlk2 := lookupDesc_eq _ ((applyDesc old1 e0).toStored) e0.code hnd2
      hmem2 hcode2 hc hdesc1
    cases hl1 : lookupDesc old1 e0.code with
    | some dd =>
      have hdd : (applyDesc old1 e0).description = dd := by
        simp [applyDesc, hl1]
      rw [show descOf (applyDesc old1 e0).toStored =
            (applyDesc old1 e0).description from rfl, hdd] at hlk2
      simp only [applyDesc, retime_code, hlk2, hl1]
      rfl
    | none =>
      have he1e : applyDesc old1 e0 = e0 := applyDesc_of_none _ _ hl1
      rw [show descOf (applyDesc old1 e0).toStored =
            (applyDesc old1 e0).description from rfl, he1e] at hlk2
      simp only [applyDesc, retime_code, hlk2, hl1]
      rfl

/-- Loading a parsed manifest file yields that manifest. -/
theorem loadedOld_parsed (dd : Option (List DirState)) (m : StoredManifest) :
    loadedOld ⟨dd, .parsed m⟩ = m := rfl

/-- C1 amended: with no change to any underlying data file, a second full
reconciliation over the first run's saved manifest reproduces it except for
the top-level `generated` timestamp AND each entry's
`domainDetection.detectedAt` stamp, which is re-issued at scan time on every
run. -/
theorem generate_idempotent_amended :
    ∀ (dirs : List DirState) (mf : FileRead StoredManifest) (t1 t2 : String)
      (m1 : Manifest),
      (dirs.map DirState.name).Nodup →
      generate_manifest ⟨some dirs, mf⟩ t1 = some m1 →
      generate_manifest ⟨some dirs, .parsed m1.toStored⟩ t2 =
        some { m1 with
          generated := t2
          exams := m1.exams.map (retime t2) } := by
  intro dirs mf t1 t2 m1 hnd hgen1
  have hndraw : (((dirs.filter (fun d => !(subAt ['.'] d.name.data))).filterMap
      (fun d => scan_exam_directory d t1)).map Entry.code).Nodup := by
    have hsub1 := scanned_codes_sublist t1
      (dirs.filter (fun d => !(subAt ['.'] d.name.data)))
    have hsub2 : ((dirs.filter (fun d => !(subAt ['.'] d.name.data))).map
        DirState.name).Sublist (dirs.map DirState.name) :=
      (List.filter_sublist dirs).map DirState.name
    exact hnd.sublist (hsub1.trans hsub2)
  simp only [generate_manifest, Option.some.injEq] at hgen1
  subst hgen1
  have hsecond := second_scan_entries
    (dirs.filter (fun d => !(subAt ['.'] d.name.data)))
    ((loadedOld ⟨some dirs, mf⟩).exams.getD []) t1 t2 hndraw
  simp only [generate_manifest, loadedOld_parsed, Manifest.toStored,
             Option.getD_some, Option.some.injEq]
  rw [hsecond, sortEntries_retime]
  have hqc : (((sortEntries (((dirs.filter
      (fun d => !(subAt ['.'] d.name.data))).filterMap
        (fun d => scan_exam_directory d t1)).map
          (applyDesc ((loadedOld ⟨some dirs, mf⟩).exams.getD [])))).map
            (retime t2)).map Entry.questionCount) =
      ((sortEntries (((dirs.filter
        (fun d => !(subAt ['.'] d.name.data))).filterMap
          (fun d => scan_exam_directory d t1)).map
            (applyDesc ((loadedOld ⟨some dirs, mf⟩).exams.getD [])))).map
              Entry.questionCount) := by
    rw [List.map_map]
    exact List.map_congr_left fun e _ => rfl
  simp [hqc, List.length_map]

/-- C1 counterexample: a concrete store with a single exam directory, first
reconciled at "T1" and re-reconciled (unchanged) at "T2".  Even after forcing
the `generated` fields to agree, the two manifests differ — the entry's
`domainDetection.detectedAt` was re-stamped — so the runs are NOT
byte-identical except for `generated`. -/
theorem generate_idempotent_counterexample :
    ¬ ({ m1C with generated := "" } = { m2C with generated := "" }) := by
  decide

/-- C1 amended, witnessed on the same concrete store. -/
theorem generate_idempotent_amended_witness :
    generate_manifest ⟨some [dirCsa], .parsed m1C.toStored⟩ "T2" =
      some { m1C with
        generated := "T2"
        exams := m1C.exams.map (retime "T2") } :=
  generate_idempotent_amended [dirCsa] .missing "T1" "T2" m1C (by decide) rfl

end ExamsViewer
